import Mathlib

/-!
Verification of `bot_cronograma_escolar.py` (school-schedule reminder bot).

The development shallowly embeds the program's pure core: the proleptic
Gregorian calendar used by Python `datetime.date`, the event record produced
by `load_events`, the fire-time computation of `schedule_jobs` (including the
actual offset pytz attaches when a `DstTzInfo` is passed as `tzinfo=` to
`datetime.combine`), the per-recipient delivery loop of `notify`, the
grouping/ordering of `/proximos` and `/hoje`, the subscriber-store mutations
of `/start` and `/stop`, `save_subs` error handling, and `parse_date` with
Python `strptime` semantics for the formats `%d/%m/%Y` and `%d/%m/%y`.
-/

namespace Cronograma

/-! ### Calendar (Python `datetime.date`, proleptic Gregorian) -/

/-- A calendar date as in Python's `datetime.date`: year, month, day. -/
structure Date where
  year : Nat
  month : Nat
  day : Nat
deriving DecidableEq, Repr

/-- Gregorian leap-year rule, as used by `datetime`. -/
def isLeap (y : Nat) : Bool :=
  y % 4 == 0 && (y % 100 != 0 || y % 400 == 0)

/-- Days in a month of a given year (Python `calendar` rule). -/
def daysInMonth (y m : Nat) : Nat :=
  if m = 2 then (if isLeap y then 29 else 28)
  else if m = 4 ∨ m = 6 ∨ m = 9 ∨ m = 11 then 30
  else 31

/-- Python `d - timedelta(days=1)` on a `datetime.date`: the previous calendar day. -/
def Date.prevDay (d : Date) : Date :=
  if 1 < d.day then ⟨d.year, d.month, d.day - 1⟩
  else if 1 < d.month then ⟨d.year, d.month - 1, daysInMonth d.year (d.month - 1)⟩
  else ⟨d.year - 1, 12, 31⟩

/-- Python `d + timedelta(days=1)` on a `datetime.date`: the next calendar day. -/
def Date.nextDay (d : Date) : Date :=
  if d.day < daysInMonth d.year d.month then ⟨d.year, d.month, d.day + 1⟩
  else if d.month < 12 then ⟨d.year, d.month + 1, 1⟩
  else ⟨d.year + 1, 1, 1⟩

/-- Days in all years strictly before year `y` (as in `date.toordinal`). -/
def daysBeforeYear (y : Nat) : Nat :=
  (y - 1) * 365 + (y - 1) / 4 - (y - 1) / 100 + (y - 1) / 400

/-- Days in all months of year `y` strictly before month `m`. -/
def daysBeforeMonth (y m : Nat) : Nat :=
  (List.range m).foldl (fun acc k => if k = 0 then acc else acc + daysInMonth y k) 0

/-- Python `date.toordinal`: day count with 0001-01-01 mapped to 1. -/
def Date.toOrdinal (d : Date) : Nat :=
  daysBeforeYear d.year + daysBeforeMonth d.year d.month + d.day

/-- Ordering of `datetime.date` values: lexicographic on (year, month, day). -/
def Date.le (a b : Date) : Prop :=
  a.year < b.year ∨ (a.year = b.year ∧
    (a.month < b.month ∨ (a.month = b.month ∧ a.day ≤ b.day)))

instance decDateLe : DecidableRel Date.le := fun a b => by
  unfold Date.le
  exact inferInstance

/-! ### Events (`load_events` row shape) -/

/-- One event dict as appended by `load_events`:
`date`, `title` (`titulo` with placeholder fallback), `descr` (stripped
`descricao`), `loc` (stripped `local`), `src` (the CSV file name). -/
structure Event where
  date : Date
  title : String
  descr : String
  loc : String
  src : String
deriving DecidableEq, Repr

/-! ### Aware instants and the pytz offsets

An aware `datetime` is compared and fired by its UTC instant; we measure
instants in minutes.  A local wall-clock time is converted to UTC by
subtracting the zone's UTC offset (`utc = local - offset`).

`TZ = pytz.timezone("America/Sao_Paulo")`:
* `datetime.now(TZ)` goes through `fromutc`, which localizes correctly; for
  every date since Brazil abolished DST in 2019 the offset is -03:00, i.e.
  -180 minutes.  All concrete scenarios in this development are in 2025.
* `datetime.combine(d, t, tzinfo=TZ)` attaches the `DstTzInfo` object
  directly, so its `utcoffset()` is the zone's first (LMT) entry, which pytz
  rounds to whole minutes: -3:06, i.e. -186 minutes.  This is the well-known
  pytz pitfall: the resulting instant is 6 minutes after the intended
  HH:00 São Paulo wall-clock time. -/

/-- UTC offset, in minutes, of a correctly localized America/Sao_Paulo time
for post-2019 dates (no DST since 2019): -03:00. -/
def spOffsetModern : Int := -180

/-- UTC offset, in minutes, that pytz reports when its `DstTzInfo` for
America/Sao_Paulo is attached directly via `tzinfo=` (the LMT entry,
rounded by pytz to whole minutes): -3:06. -/
def pytzAttachOffset : Int := -186

/-- UTC instant (in minutes) of local wall-clock `d h:mi` in a zone with the
given UTC offset in minutes. -/
def instantUTC (d : Date) (h mi : Nat) (offset : Int) : Int :=
  ((d.toOrdinal * 1440 + h * 60 + mi : Nat) : Int) - offset

/-! ### `schedule_jobs` -/

/-- The `run_dt` computed by `schedule_jobs` for one event, as a UTC
instant: `datetime.combine(ev["date"] - timedelta(days=1), time(HOUR, 0),
tzinfo=TZ)`, which carries the pytz-attach (LMT) offset. -/
def runDtUTC (hour : Nat) (evDate : Date) : Int :=
  instantUTC evDate.prevDay hour 0 pytzAttachOffset

/-- The pass `schedule_jobs`: for each loaded event compare `run_dt > now` and arm a
one-shot job `(event, run_dt)` when strictly in the future, else skip.
`nowUTC` is the UTC instant of `datetime.now(TZ)`. -/
def schedule_jobs (hour : Nat) (events : List Event) (nowUTC : Int) :
    List (Event × Int) :=
  events.filterMap (fun ev =>
    let run_dt := runDtUTC hour ev.date
    if nowUTC < run_dt then some (ev, run_dt) else none)

/-- The single event of the spec's scenario:
`{date: 10/05/2025, title: "Prova", group: "theo_turma"}`. -/
def provaEvent : Event :=
  { date := ⟨2025, 5, 10⟩, title := "Prova", descr := "", loc := "",
    src := "theo_turma" }

/-- The instant `now = 08/05/2025 09:00` São Paulo local time, as a UTC instant. -/
def nowScenario : Int := instantUTC ⟨2025, 5, 8⟩ 9 0 spOffsetModern

/-! ### `notify`: the per-recipient delivery loop -/

/-- The spec's `DeliveryReport`, read off from the `notify` loop: the loop
iterates over all subscribers, counts a success on a normal send, and on an
exception logs the failing chat id and continues.  `attempted` records every
chat id for which a send was attempted, in loop order. -/
structure DeliveryReport where
  total : Nat
  successes : Nat
  failures : List Int
  attempted : List Int
deriving DecidableEq, Repr

/-- One iteration of the `for cid in subs` loop in `notify`: attempt the
send; an exception is caught by the per-recipient `try`/`except`, which logs
the failing id and lets the loop continue. -/
def notifyStep (send : Int → Bool) (r : DeliveryReport) (cid : Int) :
    DeliveryReport :=
  if send cid then
    { r with successes := r.successes + 1, attempted := r.attempted ++ [cid] }
  else
    { r with failures := r.failures ++ [cid], attempted := r.attempted ++ [cid] }

/-- The delivery loop of `notify` over the freshly loaded subscriber list,
with the transport modelled as `send : chat id → success?`. -/
def notify (send : Int → Bool) (subs : List Int) : DeliveryReport :=
  subs.foldl (notifyStep send) ⟨subs.length, 0, [], []⟩

/-! ### `save_subs` error handling -/

/-- What the caller of `save_subs` observes, given the outcome of the
underlying `SUBS_FILE.write_text`: the whole body runs inside
`try`/`except Exception`, and the `except` clause only logs, so the caller
always sees a normal return — no exception propagates. -/
def save_subs_result (write : Except String Unit) : Except String Unit :=
  match write with
  | .ok _ => .ok ()
  | .error _ => .ok ()

/-- The log line `save_subs` emits for a given write outcome. -/
def save_subs_log (write : Except String Unit) : List String :=
  match write with
  | .ok _ => ["Assinantes salvos com sucesso"]
  | .error e => ["Erro ao salvar assinantes: " ++ e]

/-! ### Subscriber-store mutations (`/start`, `/stop`) -/

/-- The store mutation performed by `/start`: append the chat id only when
absent (Python `if cid not in subs: subs.append(cid)`). -/
def add_sub (subs : List Int) (cid : Int) : List Int :=
  if cid ∈ subs then subs else subs ++ [cid]

/-- The store mutation performed by `/stop`: remove the first occurrence
only when present (Python `if cid in subs: subs.remove(cid)`). -/
def remove_sub (subs : List Int) (cid : Int) : List Int :=
  if cid ∈ subs then subs.erase cid else subs

/-- Store states reachable from the empty first-run store by the `/start`
and `/stop` mutations. -/
inductive ReachableStore : List Int → Prop
  | empty : ReachableStore []
  | add (s : List Int) (cid : Int) : ReachableStore s → ReachableStore (add_sub s cid)
  | remove (s : List Int) (cid : Int) : ReachableStore s → ReachableStore (remove_sub s cid)

/-- The subscribe step of the `/start` handler, also recording whether
`save_subs` was invoked: the save happens only inside the
`if cid not in subs` branch. -/
def start_subscribe (subs : List Int) (cid : Int) : List Int × Bool :=
  if cid ∈ subs then (subs, false) else (subs ++ [cid], true)

/-! ### Grouping by source (`grupos.setdefault(e["src"], []).append(e)`) -/

/-- One step of the grouping loop over an insertion-ordered dict: append the
event to its source's entry when present, else add a new entry at the end. -/
def insertGroup (gs : List (String × List Event)) (e : Event) :
    List (String × List Event) :=
  match gs with
  | [] => [(e.src, [e])]
  | (s, l) :: rest =>
    if s = e.src then (s, l ++ [e]) :: rest else (s, l) :: insertGroup rest e

/-- The grouping loop `for e in evs: grupos.setdefault(e["src"], []).append(e)`
over a dict with insertion order (Python ≥ 3.7). -/
def groupBySrc (evs : List Event) : List (String × List Event) :=
  evs.foldl insertGroup []

/-- Association-list lookup on the grouped dict. -/
def lookupGroup (s : String) : List (String × List Event) → Option (List Event)
  | [] => none
  | (t, l) :: rest => if t = s then some l else lookupGroup s rest

/-- Wrap a list in `some` when non-empty, `none` when empty. -/
def someIfNonEmpty (l : List Event) : Option (List Event) :=
  if l.isEmpty then none else some l

/-- Invariant of the grouping fold: keys are distinct going, and each key
maps to exactly the (in-order) processed events with that source. -/
def groupInv (done : List Event) (gs : List (String × List Event)) : Prop :=
  ((gs.map Prod.fst).Nodup) ∧
  ∀ s : String,
    lookupGroup s gs = someIfNonEmpty (done.filter (fun e => e.src = s))

/-! ### The `/hoje` and `/proximos` queries -/

/-- Date ordering lifted to events: the sort key `lambda e: e["date"]`. -/
def evLe (a b : Event) : Prop := Date.le a.date b.date

instance decEvLe : DecidableRel evLe := fun a b => decDateLe a.date b.date

instance totalEvLe : IsTotal Event evLe :=
  ⟨fun a b => by unfold evLe Date.le; omega⟩

instance transEvLe : IsTrans Event evLe :=
  ⟨fun a b c hab hbc => by unfold evLe Date.le at hab hbc ⊢; omega⟩

/-- The display cap `LIMITE = 5` of `/proximos`. -/
def LIMITE : Nat := 5

/-- The `/hoje` query: `tomorrow = (datetime.now(TZ) + timedelta(days=1)).date()`
(wall-clock day arithmetic on an aware datetime advances the calendar date
by exactly one day); keep events on that date, then group by source. -/
def hoje_groups (events : List Event) (today : Date) :
    List (String × List Event) :=
  groupBySrc (events.filter (fun e => e.date = Date.nextDay today))

/-- The `/proximos` query: stable-sort the loaded events by date, keep those with
`date >= today`, group by source, and cap each group at `LIMITE` entries
when rendering (`lista[:LIMITE]`). -/
def proximos_groups (events : List Event) (today : Date) :
    List (String × List Event) :=
  (groupBySrc ((List.insertionSort evLe events).filter
      (fun e => decide (Date.le today e.date)))).map
    (fun g => (g.1, g.2.take LIMITE))

/-- Concrete event for witnesses: dated one day after 10/05/2025. -/
def hojeEvent : Event :=
  { date := ⟨2025, 5, 11⟩, title := "Prova", descr := "", loc := "",
    src := "theo_turma.csv" }

/-! ### `parse_date`: Python `strptime` for `%d/%m/%Y` and `%d/%m/%y`

`datetime.strptime` compiles each directive to a regex and requires the
whole (stripped) string to match:
* `%d` matches `3[01]|[12]\d|0[1-9]|[1-9]` — one or two digits, value 1–31;
* `%m` matches `1[0-2]|0[1-9]|[1-9]` — one or two digits, value 1–12;
* `%Y` matches exactly four digits, `%y` exactly two digits with the pivot
  0–68 ↦ 2000s, 69–99 ↦ 1900s;
* the literal `/` separators must match, and `datetime.date(y, m, d)`
  construction raises `ValueError` (caught, next format tried) for an
  invalid calendar combination (`MINYEAR = 1`, `MAXYEAR = 9999`). -/

/-- Python `str.strip` whitespace (the ASCII part, which is all the program
ever feeds it). -/
def isSpaceChar (c : Char) : Bool :=
  c == ' ' || c == '\t' || c == '\n' || c == '\r' || c == '\x0b' || c == '\x0c'

/-- Python `s.strip()` on the character list of `s`. -/
def pyStrip (s : String) : List Char :=
  ((s.data.dropWhile isSpaceChar).reverse.dropWhile isSpaceChar).reverse

/-- Split a character list at every `'/'`. -/
def splitSlash : List Char → List (List Char)
  | [] => [[]]
  | c :: rest =>
    if c == '/' then [] :: splitSlash rest
    else
      match splitSlash rest with
      | l :: ls => (c :: l) :: ls
      | [] => [[c]]

def isDigitChar (c : Char) : Bool := '0' ≤ c && c ≤ '9'

/-- Value of a decimal digit string (junk-free by the callers' guards). -/
def digitVal (l : List Char) : Nat :=
  l.foldl (fun acc c => acc * 10 + (c.toNat - 48)) 0

/-- A one-or-two digit day/month field with value in `1..maxv` (the
`strptime` regexes for `%d` and `%m`). -/
def numField (maxv : Nat) (l : List Char) : Option Nat :=
  if l.all isDigitChar && (decide (l.length = 1) || decide (l.length = 2)) then
    if decide (1 ≤ digitVal l) && decide (digitVal l ≤ maxv) then
      some (digitVal l)
    else none
  else none

/-- A year field of exactly `n` digits (`%Y`: 4, `%y`: 2). -/
def exactDigits (n : Nat) (l : List Char) : Option Nat :=
  if decide (l.length = n) && l.all isDigitChar then some (digitVal l) else none

/-- Python's two-digit-year pivot (`time.strptime`): 0–68 ↦ 2000s,
69–99 ↦ 1900s. -/
def y2map (yy : Nat) : Nat := if yy ≤ 68 then 2000 + yy else 1900 + yy

/-- Validity of the `datetime.date(y, m, d)` constructor. -/
def isValidDate (y m d : Nat) : Bool :=
  decide (1 ≤ y) && decide (y ≤ 9999) && decide (1 ≤ m) && decide (m ≤ 12) &&
    decide (1 ≤ d) && decide (d ≤ daysInMonth y m)

/-- Return `some` of the date when constructible, else `none` (`ValueError`). -/
def mkValid (y m d : Nat) : Option Date :=
  if isValidDate y m d then some ⟨y, m, d⟩ else none

/-- The year stage of `parse_date`: `%Y` (four digits), else `%y` (two
digits with the pivot), each followed by `datetime.date` construction. -/
def parseYear (ys : List Char) (m dd : Nat) : Option Date :=
  match exactDigits 4 ys with
  | some y => mkValid y m dd
  | none =>
    match exactDigits 2 ys with
    | some yy => mkValid (y2map yy) m dd
    | none => none

/-- The function `parse_date`: strip, try `%d/%m/%Y`, then `%d/%m/%y`, else `None`.
When `%Y` matches four digits but the date is invalid, Python falls through
to `%y`, which then fails on the four-digit year; returning `none` directly
from the `%Y` branch is therefore equivalent. -/
def parse_date (s : String) : Option Date :=
  match splitSlash (pyStrip s) with
  | [ds, ms, ys] =>
    match numField 31 ds, numField 12 ms with
    | some dd, some m => parseYear ys m dd
    | _, _ => none
  | _ => none

/-! ### `load_events` row handling -/

/-- One CSV row as consumed by `load_events`: `row.get("data", "")`
collapses an absent date column to `""`; `titulo` keeps its presence for
the `or "(sem título)"` fallback; `descricao` and `local` default to `""`
before stripping. -/
structure RawRow where
  data : String
  titulo : Option String
  descricao : String
  loc : String
deriving DecidableEq, Repr

/-- Python `s.strip()` as a String-to-String function. -/
def stripStr (s : String) : String := ⟨pyStrip s⟩

/-- Python `row.get("titulo") or "(sem título)"`: absent or empty gives the
placeholder. -/
def rowTitle (t : Option String) : String :=
  match t with
  | none => "(sem título)"
  | some t2 => if t2 = "" then "(sem título)" else t2

/-- The event dict appended for one parseable row of file `srcName`. -/
def normalizeRow (srcName : String) (row : RawRow) (d : Date) : Event :=
  { date := d, title := rowTitle row.titulo, descr := stripStr row.descricao,
    loc := stripStr row.loc, src := srcName }

/-- The row loop of `load_events` for one CSV file: a row whose date fails
`parse_date` is skipped (`continue`); every other row is appended in
order. -/
def load_events_file (srcName : String) (rows : List RawRow) : List Event :=
  rows.filterMap (fun row =>
    match parse_date row.data with
    | none => none
    | some d => some (normalizeRow srcName row d))

/-- A row with an unparseable date, for witnesses. -/
def badRow : RawRow := { data := "abc", titulo := none, descricao := "", loc := "" }

/-- A parseable row, for witnesses. -/
def goodRow : RawRow :=
  { data := "10/05/2025", titulo := some "Prova", descricao := " d ", loc := "" }

/-! ### `strftime` date rendering (`%d/%m/%Y`, `%d/%m/%y`, `%d/%m`) -/

/-- The decimal digit character for `k < 10` (clamps at `'9'`). -/
def digitChar (k : Nat) : Char :=
  if k = 0 then '0' else if k = 1 then '1' else if k = 2 then '2'
  else if k = 3 then '3' else if k = 4 then '4' else if k = 5 then '5'
  else if k = 6 then '6' else if k = 7 then '7' else if k = 8 then '8'
  else '9'

/-- Rendering for `%d`/`%m`/`%y`: zero-padded two-digit rendering (fields are `< 100`). -/
def pad2 (n : Nat) : List Char := [digitChar (n / 10), digitChar (n % 10)]

/-- Rendering for `%Y` for years 1000–9999: exactly four decimal digits (all years this
development formats lie in that range). -/
def digits4 (n : Nat) : List Char :=
  [digitChar (n / 1000), digitChar (n / 100 % 10), digitChar (n / 10 % 10),
    digitChar (n % 10)]

/-- Python `d.strftime("%d/%m/%Y")`. -/
def fmtY4 (d : Date) : String :=
  ⟨pad2 d.day ++ '/' :: (pad2 d.month ++ '/' :: digits4 d.year)⟩

/-- Python `d.strftime("%d/%m/%y")` (`%y` renders `year % 100`, zero-padded). -/
def fmtY2 (d : Date) : String :=
  ⟨pad2 d.day ++ '/' :: (pad2 d.month ++ '/' :: pad2 (d.year % 100))⟩

/-! ### Group classification and the reminder message of `notify` -/

/-- Whether `p` is a prefix of `l` (Boolean). -/
def leadsWith : List Char → List Char → Bool
  | [], _ => true
  | _ :: _, [] => false
  | p :: ps, c :: cs => p == c && leadsWith ps cs

/-- Python's `pat in s` substring test. -/
def hasSub (pat : List Char) : List Char → Bool
  | [] => pat.isEmpty
  | c :: rest => leadsWith pat (c :: rest) || hasSub pat rest

/-- Python `src.lower()` (ASCII lowering, which covers every group identifier and
the marker `"theo"` the program compares against). -/
def lowerData (s : String) : List Char := s.data.map Char.toLower

/-- Python `"Théo" if "theo" in src.lower() else "Liz"`: the group-label rule used
by `/proximos` and `/hoje`. -/
def classify (src : String) : String :=
  if hasSub "theo".data (lowerData src) then "Théo" else "Liz"

/-- Python `d.strftime('%d/%m')`. -/
def fmtDM (d : Date) : String := ⟨pad2 d.day ++ '/' :: pad2 d.month⟩

/-- The reminder message built by `notify` for its bound event: header,
date and title lines, optional location and description lines (only when
the field is non-empty), and a final `Cronograma` line carrying the raw
`ev["src"]`. -/
def notifyMsg (ev : Event) : String :=
  let m1 := "🗓️ *Lembrete de amanhã!*\n" ++ "*Data:* " ++ fmtDM ev.date ++ "\n"
    ++ "*Evento:* " ++ ev.title ++ "\n"
  let m2 := if ev.loc = "" then m1 else m1 ++ "*Local:* " ++ ev.loc ++ "\n"
  let m3 := if ev.descr = "" then m2 else m2 ++ "*Descrição:* " ++ ev.descr ++ "\n"
  m3 ++ "\n📋 Cronograma: " ++ ev.src

/-- Split a character list at every newline. -/
def splitNL : List Char → List (List Char)
  | [] => [[]]
  | c :: rest =>
    if c == '\n' then [] :: splitNL rest
    else
      match splitNL rest with
      | l :: ls => (c :: l) :: ls
      | [] => [[c]]

/-- The event of the C5 counterexample: a `theo` group with empty location
and description. -/
def theoEvent : Event :=
  { date := ⟨2025, 5, 10⟩, title := "Prova", descr := "", loc := "",
    src := "theo_turma.csv" }

/-- The event of the C5 witness: non-empty location, empty description. -/
def lizEvent : Event :=
  { date := ⟨2025, 5, 10⟩, title := "Prova", descr := "", loc := "Sala 3",
    src := "liz.csv" }

/-! ### Lemmas and claim theorems -/

/-- Membership in the armed-job list of `schedule_jobs`. -/
lemma mem_schedule_jobs {hour : Nat} {events : List Event} {nowUTC : Int}
    {ev : Event} {t : Int} :
    (ev, t) ∈ schedule_jobs hour events nowUTC ↔
      ev ∈ events ∧ t = runDtUTC hour ev.date ∧ nowUTC < t := by
  simp only [schedule_jobs, List.mem_filterMap]
  constructor
  · rintro ⟨a, ha, hf⟩
    by_cases h : nowUTC < runDtUTC hour a.date
    · rw [if_pos h] at hf
      obtain ⟨rfl, rfl⟩ := Prod.mk.injEq .. ▸ Option.some.inj hf
      exact ⟨ha, rfl, h⟩
    · rw [if_neg h] at hf
      exact absurd hf (Option.noConfusion)
  · rintro ⟨h1, rfl, h3⟩
    exact ⟨ev, h1, by rw [if_pos h3]⟩

/-- C1: the code contradicts the claimed fire time.  At the spec's own
scenario (event date 10/05/2025, hour 14, now = 08/05/2025 09:00 local),
exactly one job is armed, but its `fireAt` instant is 09/05/2025 14:06
São Paulo wall-clock time, not 14:00: `datetime.combine(..., tzinfo=TZ)`
attaches the pytz LMT offset (-3:06) instead of a properly localized -03:00,
so the armed instant differs from the claimed one by 6 minutes.  This also
contradicts the program's own docstring and `/start` reply, which promise
reminders at `HOUR`:00 ("lembretes às 14h do dia anterior"). -/
theorem C1_fire_time_pytz_bug :
    schedule_jobs 14 [provaEvent] nowScenario =
      [(provaEvent, runDtUTC 14 provaEvent.date)] ∧
    runDtUTC 14 provaEvent.date = instantUTC ⟨2025, 5, 9⟩ 14 6 spOffsetModern ∧
    runDtUTC 14 provaEvent.date ≠ instantUTC ⟨2025, 5, 9⟩ 14 0 spOffsetModern := by
  refine ⟨by decide, by decide, by decide⟩

/-- C2: `schedule_jobs` never arms a job whose fire time is at or before
`now`: every armed job's `fireAt` is strictly in the future and equals the
computed `run_dt` of an input event; every event whose `run_dt` is strictly
in the future is armed; every event whose `run_dt` is not strictly in the
future is silently skipped (no job for it appears in the output). -/
theorem C2_never_arms_past (hour : Nat) (events : List Event) (nowUTC : Int) :
    (∀ j ∈ schedule_jobs hour events nowUTC,
        nowUTC < j.2 ∧ j.2 = runDtUTC hour j.1.date ∧ j.1 ∈ events) ∧
    (∀ ev ∈ events, nowUTC < runDtUTC hour ev.date →
        (ev, runDtUTC hour ev.date) ∈ schedule_jobs hour events nowUTC) ∧
    (∀ ev ∈ events, runDtUTC hour ev.date ≤ nowUTC →
        ∀ t, (ev, t) ∉ schedule_jobs hour events nowUTC) := by
  refine ⟨?_, ?_, ?_⟩
  · rintro ⟨ev, t⟩ hj
    obtain ⟨h1, h2, h3⟩ := mem_schedule_jobs.mp hj
    exact ⟨h3, h2, h1⟩
  · intro ev hev hlt
    exact mem_schedule_jobs.mpr ⟨hev, rfl, hlt⟩
  · intro ev _ hle t hj
    obtain ⟨_, rfl, h3⟩ := mem_schedule_jobs.mp hj
    exact absurd h3 (not_lt.mpr hle)

/-- Witness for C2 at the spec scenario: the 10/05/2025 event is armed when
`now` is 08/05/2025 09:00 local time. -/
theorem C2_witness :
    (provaEvent, runDtUTC 14 provaEvent.date) ∈
      schedule_jobs 14 [provaEvent] nowScenario :=
  (C2_never_arms_past 14 [provaEvent] nowScenario).2.1 provaEvent
    (by decide) (by decide)

/-- Closed form of the `notify` fold from an arbitrary starting report. -/
lemma notify_foldl (send : Int → Bool) :
    ∀ (subs : List Int) (r : DeliveryReport),
      subs.foldl (notifyStep send) r =
        { total := r.total,
          successes := r.successes + (subs.filter (fun c => send c)).length,
          failures := r.failures ++ subs.filter (fun c => !send c),
          attempted := r.attempted ++ subs } := by
  intro subs
  induction subs with
  | nil => intro r; simp
  | cons a l ih =>
    intro r
    by_cases h : send a <;>
      simp [notifyStep, h, ih, List.filter_cons, Nat.add_assoc, Nat.add_comm 1]

/-- A nodup list containing `k` filters down to `[k]` on `(· == k)`. -/
lemma filter_eq_single {l : List Int} {k : Int} (hnd : l.Nodup) (hk : k ∈ l) :
    l.filter (fun c => c == k) = [k] := by
  induction l with
  | nil => cases hk
  | cons a l ih =>
    obtain ⟨ha, hl⟩ := List.nodup_cons.mp hnd
    by_cases hak : a = k
    · subst hak
      rw [List.filter_cons_of_pos (by simp)]
      have hnil : l.filter (fun c => c == a) = [] := by
        rw [List.filter_eq_nil_iff]
        intro c hc
        simp only [beq_iff_eq]
        rintro rfl
        exact ha hc
      rw [hnil]
    · rw [List.filter_cons_of_neg (by simp [hak])]
      exact ih hl ((List.mem_cons.mp hk).resolve_left (fun h => hak h.symm))

/-- Splitting a list's length by a predicate. -/
lemma length_filter_split (p : Int → Bool) (l : List Int) :
    (l.filter p).length + (l.filter (fun c => !p c)).length = l.length := by
  induction l with
  | nil => rfl
  | cons a l ih =>
    by_cases h : p a <;> simp [List.filter_cons, h] <;> omega

/-- C3: when exactly one of the subscribers fails, `notify` still attempts
delivery to every subscriber, reports `N - 1` successes, and the failing
chat id appears in the failure (logged-error) list. -/
theorem C3_single_failure_isolated (send : Int → Bool) (subs : List Int)
    (k : Int) (hnd : subs.Nodup) (hk : k ∈ subs)
    (hfail : ∀ c ∈ subs, (send c = false ↔ c = k)) :
    (notify send subs).successes = subs.length - 1 ∧
    k ∈ (notify send subs).failures ∧
    (notify send subs).attempted = subs := by
  have hrep := notify_foldl send subs ⟨subs.length, 0, [], []⟩
  have hfilter : subs.filter (fun c => !send c) = [k] := by
    rw [List.filter_congr (fun c hc => ?_), filter_eq_single hnd hk]
    have := hfail c hc
    by_cases hs : send c <;> simp [hs] at this ⊢ <;> simp [this]
  have hlen := length_filter_split (fun c => send c) subs
  rw [hfilter] at hlen
  refine ⟨?_, ?_, ?_⟩
  · rw [notify, hrep]
    show 0 + (subs.filter (fun c => send c)).length = subs.length - 1
    simp only [List.length_cons, List.length_nil] at hlen
    omega
  · rw [notify, hrep]
    simp [hfilter]
  · rw [notify, hrep]
    simp

/-- Witness for C3: three subscribers, subscriber 2 fails: two successes,
2 in the failure list, all three attempted. -/
theorem C3_witness :
    (notify (fun c => c != 2) [1, 2, 3]).successes = [1, 2, 3].length - 1 ∧
    (2 : Int) ∈ (notify (fun c => c != 2) [1, 2, 3]).failures ∧
    (notify (fun c => c != 2) [1, 2, 3]).attempted = [1, 2, 3] :=
  C3_single_failure_isolated (fun c => c != 2) [1, 2, 3] 2
    (by decide) (by decide) (by decide)

/-- C7 counterexample: a failing persistence write is NOT surfaced to the
caller of `save_subs` — with the write failing ("disk full"), the caller
still observes a normal (non-error) return. -/
theorem C7_counterexample :
    ¬ ∃ msg, save_subs_result (Except.error "disk full") = Except.error msg := by
  rintro ⟨msg, h⟩
  simp [save_subs_result] at h

/-- C7 amended: a persistence I/O failure during `save_subs` (hence during
subscribe/unsubscribe) is caught inside `save_subs` and logged; the caller
observes a normal successful return, i.e. the failure is swallowed, not
surfaced. -/
theorem C7_failure_swallowed (e : String) :
    save_subs_result (Except.error e) = Except.ok () ∧
    save_subs_log (Except.error e) = ["Erro ao salvar assinantes: " ++ e] :=
  ⟨rfl, rfl⟩

/-- Every reachable store state is duplicate-free. -/
lemma ReachableStore.nodup {s : List Int} (h : ReachableStore s) : s.Nodup := by
  induction h with
  | empty => exact List.nodup_nil
  | add s cid _ ih =>
    unfold add_sub
    split
    · exact ih
    · next hmem => simp [List.nodup_append, ih, hmem]
  | remove s cid _ ih =>
    unfold remove_sub
    split
    · exact ih.erase cid
    · exact ih

/-- C8: on every reachable store state, adding an id once or twice leaves a
store listing the id exactly once, and adding an already-present id is a
no-op on the stored list. -/
theorem C8_add_idempotent (s : List Int) (cid : Int) (h : ReachableStore s) :
    (add_sub s cid).count cid = 1 ∧
    add_sub (add_sub s cid) cid = add_sub s cid ∧
    (cid ∈ s → add_sub s cid = s) := by
  have hmem : cid ∈ add_sub s cid := by
    unfold add_sub
    split
    · assumption
    · simp
  have hnd : (add_sub s cid).Nodup := (ReachableStore.add s cid h).nodup
  have noop : ∀ (t : List Int) (c : Int), c ∈ t → add_sub t c = t := by
    intro t c hc
    unfold add_sub
    exact if_pos hc
  exact ⟨List.count_eq_one_of_mem hnd hmem, noop _ _ hmem, fun hin => noop _ _ hin⟩

/-- Witness for C8 on the reachable store `[5]` (built by one subscribe). -/
theorem C8_witness :
    (add_sub [5] 7).count 7 = 1 ∧
    add_sub (add_sub [5] 7) 7 = add_sub [5] 7 ∧
    ((7 : Int) ∈ [(5 : Int)] → add_sub [5] 7 = [5]) :=
  C8_add_idempotent [5] 7
    ((by decide : add_sub [] 5 = [5]) ▸ ReachableStore.add [] 5 ReachableStore.empty)

/-- C10: a `/start` for an already-present chat id leaves the stored list
unchanged and does not invoke `save_subs` (so the persisted file is not
rewritten and no persistence write failure can occur); the save is invoked
exactly when the id was newly appended. -/
theorem C10_duplicate_subscribe_no_save (subs : List Int) (cid : Int) :
    (cid ∈ subs → start_subscribe subs cid = (subs, false)) ∧
    ((start_subscribe subs cid).2 = true ↔ cid ∉ subs) := by
  unfold start_subscribe
  by_cases h : cid ∈ subs <;> simp [h]

/-- Witness for C10: chat 9 is already subscribed in store `[4, 9]`. -/
theorem C10_witness : start_subscribe [4, 9] 9 = ([4, 9], false) :=
  (C10_duplicate_subscribe_no_save [4, 9] 9).1 (by decide)

lemma lookupGroup_insertGroup (gs : List (String × List Event)) (e : Event)
    (s : String) :
    lookupGroup s (insertGroup gs e) =
      if s = e.src then some ((lookupGroup s gs).getD [] ++ [e])
      else lookupGroup s gs := by
  induction gs with
  | nil =>
    by_cases h : s = e.src
    · simp [insertGroup, lookupGroup, h]
    · have h2 : ¬ e.src = s := fun hh => h hh.symm
      simp [insertGroup, lookupGroup, h, h2]
  | cons p rest ih =>
    obtain ⟨t, l⟩ := p
    simp only [insertGroup]
    by_cases ht : t = e.src
    · rw [if_pos ht]
      by_cases hs : s = e.src
      · have hts : t = s := ht.trans hs.symm
        simp [lookupGroup, hts, hs]
      · have hts : ¬ t = s := fun hh => hs (hh.symm.trans ht)
        simp [lookupGroup, hts, hs]
    · rw [if_neg ht]
      by_cases hts : t = s
      · have hs : ¬ s = e.src := fun hh => ht (hts.trans hh)
        simp [lookupGroup, hts, hs]
      · simp [lookupGroup, hts, ih]

lemma lookupGroup_eq_none (s : String) (gs : List (String × List Event)) :
    lookupGroup s gs = none ↔ s ∉ gs.map Prod.fst := by
  induction gs with
  | nil => simp [lookupGroup]
  | cons p rest ih =>
    obtain ⟨t, l⟩ := p
    by_cases ht : t = s
    · simp [lookupGroup, ht]
    · have ht2 : ¬ s = t := fun hh => ht hh.symm
      simp [lookupGroup, ht, ht2, ih]

lemma keys_insertGroup (gs : List (String × List Event)) (e : Event) :
    (insertGroup gs e).map Prod.fst =
      if (lookupGroup e.src gs).isSome then gs.map Prod.fst
      else gs.map Prod.fst ++ [e.src] := by
  induction gs with
  | nil => simp [insertGroup, lookupGroup]
  | cons p rest ih =>
    obtain ⟨t, m⟩ := p
    by_cases ht : t = e.src
    · simp [insertGroup, lookupGroup, ht]
    · simp only [insertGroup, if_neg ht, List.map_cons, lookupGroup, ih]
      split <;> simp

lemma keys_nodup_insertGroup (gs : List (String × List Event)) (e : Event)
    (h : (gs.map Prod.fst).Nodup) :
    ((insertGroup gs e).map Prod.fst).Nodup := by
  rw [keys_insertGroup]
  split
  · exact h
  · next hnone =>
    have hnotmem : e.src ∉ gs.map Prod.fst := by
      rw [← lookupGroup_eq_none]
      cases hlk : lookupGroup e.src gs with
      | none => rfl
      | some v =>
        rw [hlk] at hnone
        simp at hnone
    simp [List.nodup_append, h, hnotmem]

lemma mem_iff_lookupGroup (gs : List (String × List Event))
    (h : (gs.map Prod.fst).Nodup) (s : String) (l : List Event) :
    (s, l) ∈ gs ↔ lookupGroup s gs = some l := by
  induction gs with
  | nil => simp [lookupGroup]
  | cons p rest ih =>
    obtain ⟨t, m⟩ := p
    simp only [List.map_cons, List.nodup_cons] at h
    by_cases ht : t = s
    · simp only [lookupGroup, if_pos ht, Option.some.injEq, List.mem_cons,
        Prod.mk.injEq]
      constructor
      · rintro (⟨h1, h2⟩ | hmem2)
        · exact h2.symm
        · exact absurd (by rw [ht]; exact List.mem_map_of_mem Prod.fst hmem2) h.1
      · intro hml
        exact Or.inl ⟨ht.symm, hml.symm⟩
    · have hne : ¬ ((s, l) = (t, m)) := fun hh => ht (congrArg Prod.fst hh).symm
      simp only [lookupGroup, if_neg ht, List.mem_cons, hne, false_or]
      exact ih h.2

lemma someIfNonEmpty_append (f : List Event) (e : Event) :
    some ((someIfNonEmpty f).getD [] ++ [e]) = someIfNonEmpty (f ++ [e]) := by
  cases f <;> simp [someIfNonEmpty]

lemma groupInv_step (done : List Event) (gs : List (String × List Event))
    (e : Event) (h : groupInv done gs) :
    groupInv (done ++ [e]) (insertGroup gs e) := by
  obtain ⟨hnd, hlk⟩ := h
  refine ⟨keys_nodup_insertGroup gs e hnd, fun s => ?_⟩
  rw [lookupGroup_insertGroup, List.filter_append]
  by_cases hs : s = e.src
  · have hsrc : e.src = s := hs.symm
    have h1 : List.filter (fun e2 => decide (e2.src = s)) [e] = [e] := by
      simp [hsrc]
    rw [if_pos hs, hlk s, h1, someIfNonEmpty_append]
  · have hsrc : ¬ e.src = s := fun hh => hs hh.symm
    have h0 : List.filter (fun e2 => decide (e2.src = s)) [e] = [] := by
      simp [hsrc]
    rw [if_neg hs, hlk s, h0, List.append_nil]

lemma groupInv_foldl :
    ∀ (rest done : List Event) (gs : List (String × List Event)),
      groupInv done gs → groupInv (done ++ rest) (rest.foldl insertGroup gs) := by
  intro rest
  induction rest with
  | nil =>
    intro done gs h
    simpa using h
  | cons e rest ih =>
    intro done gs h
    have := ih (done ++ [e]) (insertGroup gs e) (groupInv_step done gs e h)
    simpa [List.append_assoc] using this

lemma groupBySrc_inv (evs : List Event) : groupInv evs (groupBySrc evs) := by
  have h0 : groupInv [] [] := ⟨List.nodup_nil, fun s => rfl⟩
  simpa using groupInv_foldl evs [] [] h0

/-- Membership characterization of the grouped dict: `(s, l)` is an entry
iff `l` is the non-empty in-order sublist of events with source `s`. -/
lemma mem_groupBySrc (evs : List Event) (s : String) (l : List Event) :
    (s, l) ∈ groupBySrc evs ↔
      l = evs.filter (fun e => e.src = s) ∧ l ≠ [] := by
  obtain ⟨hnd, hlk⟩ := groupBySrc_inv evs
  rw [mem_iff_lookupGroup _ hnd, hlk s]
  unfold someIfNonEmpty
  split
  · next he =>
    simp only [List.isEmpty_iff] at he
    constructor
    · rintro hh
      exact absurd hh (Option.noConfusion)
    · rintro ⟨rfl, hne⟩
      exact absurd he hne
  · next he =>
    simp only [List.isEmpty_iff] at he
    constructor
    · rintro hh
      obtain rfl := Option.some.inj hh
      exact ⟨rfl, he⟩
    · rintro ⟨rfl, _⟩
      rfl

/-- C4: `/hoje` returns exactly the events dated `today + 1`, grouped by
source; `/proximos` returns only events dated `>= today`, with each group
listed in ascending date order and capped at `LIMITE = 5`. -/
theorem C4_query_contents (events : List Event) (today : Date) :
    (∀ e : Event,
        (∃ g l, (g, l) ∈ hoje_groups events today ∧ e ∈ l) ↔
          (e ∈ events ∧ e.date = Date.nextDay today)) ∧
    (∀ g l, (g, l) ∈ hoje_groups events today → ∀ e ∈ l, e.src = g) ∧
    (∀ g l, (g, l) ∈ proximos_groups events today →
        (∀ e ∈ l, e ∈ events ∧ Date.le today e.date ∧ e.src = g) ∧
        List.Sorted evLe l ∧ l.length ≤ LIMITE) := by
  refine ⟨?_, ?_, ?_⟩
  · intro e
    constructor
    · rintro ⟨g, l, hgl, hel⟩
      obtain ⟨rfl, -⟩ := (mem_groupBySrc _ g l).mp hgl
      have h1 := (List.mem_filter.mp hel).1
      have h2 := List.mem_filter.mp h1
      exact ⟨h2.1, by simpa using h2.2⟩
    · rintro ⟨he, hd⟩
      have hef : e ∈ events.filter (fun x => x.date = Date.nextDay today) :=
        List.mem_filter.mpr ⟨he, by simpa using hd⟩
      refine ⟨e.src,
        (events.filter (fun x => x.date = Date.nextDay today)).filter
          (fun x => x.src = e.src), ?_, ?_⟩
      · refine (mem_groupBySrc _ _ _).mpr ⟨rfl, ?_⟩
        exact List.ne_nil_of_mem (List.mem_filter.mpr ⟨hef, by simp⟩)
      · exact List.mem_filter.mpr ⟨hef, by simp⟩
  · intro g l hgl e hel
    obtain ⟨rfl, -⟩ := (mem_groupBySrc _ g l).mp hgl
    simpa using (List.mem_filter.mp hel).2
  · intro g l hgl
    obtain ⟨⟨g2, b⟩, hb, heq⟩ := List.mem_map.mp hgl
    obtain ⟨rfl, rfl⟩ := Prod.mk.injEq .. ▸ heq
    obtain ⟨rfl, -⟩ := (mem_groupBySrc _ _ _).mp hb
    have hsorted : List.Sorted evLe
        ((List.insertionSort evLe events).filter
          (fun e => decide (Date.le today e.date))) :=
      (List.sorted_insertionSort evLe events).filter _
    refine ⟨?_, ?_, ?_⟩
    · intro e hel
      have h1 : e ∈ ((List.insertionSort evLe events).filter
          (fun x => decide (Date.le today x.date))).filter
            (fun x => x.src = g2) := (List.take_sublist _ _).subset hel
      obtain ⟨h2, h3⟩ := List.mem_filter.mp h1
      obtain ⟨h4, h5⟩ := List.mem_filter.mp h2
      refine ⟨(List.perm_insertionSort evLe events).mem_iff.mp h4,
        by simpa using h5, by simpa using h3⟩
    · exact ((hsorted.filter _).sublist (List.take_sublist _ _))
    · exact List.length_take_le _ _

/-- Witness for C4: with one event dated 11/05/2025 and today = 10/05/2025,
the event shows up in a `/hoje` group. -/
theorem C4_witness :
    ∃ g l, (g, l) ∈ hoje_groups [hojeEvent] ⟨2025, 5, 10⟩ ∧ hojeEvent ∈ l :=
  ((C4_query_contents [hojeEvent] ⟨2025, 5, 10⟩).1 hojeEvent).mpr
    ⟨by decide, by decide⟩

/-- C6: a record whose date parses under neither format is skipped alone:
loading a row list with the bad record spliced in equals loading the two
surrounding segments, and every parseable later record still produces its
event. -/
theorem C6_bad_row_skipped (srcName : String) (rows1 rows2 : List RawRow)
    (bad : RawRow) (hbad : parse_date bad.data = none) :
    load_events_file srcName (rows1 ++ bad :: rows2) =
      load_events_file srcName rows1 ++ load_events_file srcName rows2 ∧
    ∀ row ∈ rows2, ∀ d, parse_date row.data = some d →
      normalizeRow srcName row d ∈
        load_events_file srcName (rows1 ++ bad :: rows2) := by
  constructor
  · unfold load_events_file
    rw [List.filterMap_append, List.filterMap_cons_none]
    rw [hbad]
  · intro row hrow d hparse
    refine List.mem_filterMap.mpr ⟨row, ?_, ?_⟩
    · exact List.mem_append_right _ (List.mem_cons_of_mem _ hrow)
    · rw [hparse]

/-- Witness for C6: the "abc" row is skipped, the later good row loads. -/
theorem C6_witness :
    load_events_file "theo_turma.csv" ([] ++ badRow :: [goodRow]) =
      load_events_file "theo_turma.csv" [] ++
        load_events_file "theo_turma.csv" [goodRow] ∧
    ∀ row ∈ [goodRow], ∀ d, parse_date row.data = some d →
      normalizeRow "theo_turma.csv" row d ∈
        load_events_file "theo_turma.csv" ([] ++ badRow :: [goodRow]) :=
  C6_bad_row_skipped "theo_turma.csv" [] [goodRow] badRow (by decide)

lemma digitChar_toNat {k : Nat} (h : k < 10) : (digitChar k).toNat = 48 + k := by
  interval_cases k <;> decide

lemma digitChar_digit (k : Nat) : isDigitChar (digitChar k) = true := by
  unfold digitChar
  repeat' split
  all_goals decide

lemma digitChar_not_slash (k : Nat) : ¬ digitChar k = '/' := by
  unfold digitChar
  repeat' split
  all_goals decide

lemma digitChar_not_space (k : Nat) : isSpaceChar (digitChar k) = false := by
  unfold digitChar
  repeat' split
  all_goals decide

lemma digitVal_pad2 {n : Nat} (h : n < 100) : digitVal (pad2 n) = n := by
  simp only [digitVal, pad2, List.foldl]
  rw [digitChar_toNat (show n / 10 < 10 by omega),
    digitChar_toNat (show n % 10 < 10 by omega)]
  omega

lemma digitVal_digits4 {n : Nat} (h1 : 1000 ≤ n) (h2 : n ≤ 9999) :
    digitVal (digits4 n) = n := by
  simp only [digitVal, digits4, List.foldl]
  rw [digitChar_toNat (show n / 1000 < 10 by omega),
    digitChar_toNat (show n / 100 % 10 < 10 by omega),
    digitChar_toNat (show n / 10 % 10 < 10 by omega),
    digitChar_toNat (show n % 10 < 10 by omega)]
  omega

lemma pad2_all_digits (n : Nat) : (pad2 n).all isDigitChar = true := by
  simp [pad2, digitChar_digit]

lemma digits4_all_digits (n : Nat) : (digits4 n).all isDigitChar = true := by
  simp [digits4, digitChar_digit]

lemma pad2_no_slash (n : Nat) : ∀ c ∈ pad2 n, ¬ c = '/' := by
  intro c hc
  simp only [pad2, List.mem_cons, List.not_mem_nil, or_false] at hc
  rcases hc with rfl | rfl <;> exact digitChar_not_slash _

lemma digits4_no_slash (n : Nat) : ∀ c ∈ digits4 n, ¬ c = '/' := by
  intro c hc
  simp only [digits4, List.mem_cons, List.not_mem_nil, or_false] at hc
  rcases hc with rfl | rfl | rfl | rfl <;> exact digitChar_not_slash _

lemma pad2_no_space (n : Nat) : ∀ c ∈ pad2 n, isSpaceChar c = false := by
  intro c hc
  simp only [pad2, List.mem_cons, List.not_mem_nil, or_false] at hc
  rcases hc with rfl | rfl <;> exact digitChar_not_space _

lemma digits4_no_space (n : Nat) : ∀ c ∈ digits4 n, isSpaceChar c = false := by
  intro c hc
  simp only [digits4, List.mem_cons, List.not_mem_nil, or_false] at hc
  rcases hc with rfl | rfl | rfl | rfl <;> exact digitChar_not_space _

lemma dropWhile_all_neg {l : List Char} (h : ∀ c ∈ l, isSpaceChar c = false) :
    l.dropWhile isSpaceChar = l := by
  cases l with
  | nil => rfl
  | cons a l =>
    rw [List.dropWhile_cons, if_neg]
    simp [h a (List.mem_cons_self a l)]

lemma pyStrip_fmt (l : List Char) (h : ∀ c ∈ l, isSpaceChar c = false) :
    pyStrip ⟨l⟩ = l := by
  show ((l.dropWhile isSpaceChar).reverse.dropWhile isSpaceChar).reverse = l
  rw [dropWhile_all_neg h,
    dropWhile_all_neg (fun c hc => h c (List.mem_reverse.mp hc)),
    List.reverse_reverse]

lemma splitSlash_cons_nonslash (c : Char) (rest : List Char) (hc : ¬ c = '/') :
    splitSlash (c :: rest) =
      (match splitSlash rest with
       | l :: ls => (c :: l) :: ls
       | [] => [[c]]) := by
  have hb : (c == '/') = false := by simp [hc]
  show (if c == '/' then [] :: splitSlash rest else _) = _
  rw [hb]
  simp

lemma splitSlash_append (a b : List Char) (ha : ∀ c ∈ a, ¬ c = '/') :
    splitSlash (a ++ '/' :: b) = a :: splitSlash b := by
  induction a with
  | nil =>
    show splitSlash ('/' :: b) = [] :: splitSlash b
    rfl
  | cons c a ih =>
    rw [List.cons_append,
      splitSlash_cons_nonslash c _ (ha c (List.mem_cons_self c a)),
      ih (fun x hx => ha x (List.mem_cons_of_mem c hx))]

lemma splitSlash_no_slash (a : List Char) (ha : ∀ c ∈ a, ¬ c = '/') :
    splitSlash a = [a] := by
  induction a with
  | nil => rfl
  | cons c a ih =>
    rw [splitSlash_cons_nonslash c a (ha c (List.mem_cons_self c a)),
      ih (fun x hx => ha x (List.mem_cons_of_mem c hx))]

lemma fmt_split (p1 p2 p3 : List Char)
    (h1 : ∀ c ∈ p1, ¬ c = '/') (h2 : ∀ c ∈ p2, ¬ c = '/')
    (h3 : ∀ c ∈ p3, ¬ c = '/') :
    splitSlash (p1 ++ '/' :: (p2 ++ '/' :: p3)) = [p1, p2, p3] := by
  rw [splitSlash_append _ _ h1, splitSlash_append _ _ h2,
    splitSlash_no_slash _ h3]

lemma fmt_no_space (p1 p2 p3 : List Char)
    (h1 : ∀ c ∈ p1, isSpaceChar c = false)
    (h2 : ∀ c ∈ p2, isSpaceChar c = false)
    (h3 : ∀ c ∈ p3, isSpaceChar c = false) :
    ∀ c ∈ p1 ++ '/' :: (p2 ++ '/' :: p3), isSpaceChar c = false := by
  intro c hc
  simp only [List.mem_append, List.mem_cons] at hc
  rcases hc with hm | rfl | hm | rfl | hm
  · exact h1 c hm
  · decide
  · exact h2 c hm
  · decide
  · exact h3 c hm

lemma numField_pad2 {maxv n : Nat} (h1 : 1 ≤ n) (h2 : n ≤ maxv) (h3 : n < 100) :
    numField maxv (pad2 n) = some n := by
  unfold numField
  rw [digitVal_pad2 h3, pad2_all_digits]
  have hlen : (pad2 n).length = 2 := rfl
  rw [hlen]
  simp [h1, h2]

lemma exactDigits_digits4 {n : Nat} (h1 : 1000 ≤ n) (h2 : n ≤ 9999) :
    exactDigits 4 (digits4 n) = some n := by
  unfold exactDigits
  rw [digitVal_digits4 h1 h2, digits4_all_digits]
  have hlen : (digits4 n).length = 4 := rfl
  rw [hlen]
  simp

lemma exactDigits4_pad2 (n : Nat) : exactDigits 4 (pad2 n) = none := by
  unfold exactDigits
  have hlen : (pad2 n).length = 2 := rfl
  rw [hlen]
  simp

lemma exactDigits2_pad2 {n : Nat} (h : n < 100) :
    exactDigits 2 (pad2 n) = some n := by
  unfold exactDigits
  rw [digitVal_pad2 h, pad2_all_digits]
  have hlen : (pad2 n).length = 2 := rfl
  rw [hlen]
  simp

lemma daysInMonth_le31 (y m : Nat) : daysInMonth y m ≤ 31 := by
  unfold daysInMonth
  split
  · split <;> omega
  · split <;> omega

lemma parse_date_eq {s : String} {p1 p2 p3 : List Char}
    (hsplit : splitSlash (pyStrip s) = [p1, p2, p3]) :
    parse_date s =
      (match numField 31 p1, numField 12 p2 with
       | some dd, some m => parseYear p3 m dd
       | _, _ => none) := by
  unfold parse_date
  rw [hsplit]

/-- Every successful `parse_date` result is a constructible calendar date. -/
lemma parse_date_valid {s : String} {d : Date} (h : parse_date s = some d) :
    isValidDate d.year d.month d.day = true := by
  unfold parse_date at h
  split at h
  all_goals try exact absurd h (by simp)
  split at h
  all_goals try exact absurd h (by simp)
  unfold parseYear at h
  split at h
  · unfold mkValid at h
    split at h
    · next hvalid =>
      obtain rfl := Option.some.inj h
      exact hvalid
    · exact absurd h (by simp)
  · split at h
    all_goals try exact absurd h (by simp)
    unfold mkValid at h
    split at h
    · next hvalid =>
      obtain rfl := Option.some.inj h
      exact hvalid
    · exact absurd h (by simp)

/-- C9 amended: for every record whose date field parses, the parsed date
round-trips identically through both accepted formats provided the year
lies in the two-digit pivot window 1969–2068 (outside it, the `%y`
round-trip is broken by the pivot; see the counterexample). -/
theorem C9_roundtrip_in_pivot_window (s : String) (d : Date)
    (h : parse_date s = some d) (hy1 : 1969 ≤ d.year) (hy2 : d.year ≤ 2068) :
    parse_date (fmtY4 d) = some d ∧ parse_date (fmtY2 d) = some d := by
  have hvalid := parse_date_valid h
  obtain ⟨y, m, dd⟩ := d
  simp only at hvalid hy1 hy2
  have hb : 1 ≤ y ∧ y ≤ 9999 ∧ 1 ≤ m ∧ m ≤ 12 ∧ 1 ≤ dd ∧ dd ≤ 31 := by
    have h31 : daysInMonth y m ≤ 31 := daysInMonth_le31 y m
    simp only [isValidDate, Bool.and_eq_true, decide_eq_true_eq] at hvalid
    omega
  obtain ⟨hb1, hb2, hb3, hb4, hb5, hb6⟩ := hb
  constructor
  · have hstrip : pyStrip (fmtY4 ⟨y, m, dd⟩) =
        pad2 dd ++ '/' :: (pad2 m ++ '/' :: digits4 y) :=
      pyStrip_fmt _ (fmt_no_space _ _ _ (pad2_no_space dd) (pad2_no_space m)
        (digits4_no_space y))
    have hsplit : splitSlash (pyStrip (fmtY4 ⟨y, m, dd⟩)) =
        [pad2 dd, pad2 m, digits4 y] := by
      rw [hstrip]
      exact fmt_split _ _ _ (pad2_no_slash dd) (pad2_no_slash m)
        (digits4_no_slash y)
    rw [parse_date_eq hsplit, numField_pad2 hb5 hb6 (by omega),
      numField_pad2 hb3 hb4 (by omega)]
    show parseYear (digits4 y) m dd = some ⟨y, m, dd⟩
    unfold parseYear
    rw [exactDigits_digits4 (by omega) (by omega)]
    show mkValid y m dd = some ⟨y, m, dd⟩
    simp [mkValid, hvalid]
  · have hstrip : pyStrip (fmtY2 ⟨y, m, dd⟩) =
        pad2 dd ++ '/' :: (pad2 m ++ '/' :: pad2 (y % 100)) :=
      pyStrip_fmt _ (fmt_no_space _ _ _ (pad2_no_space dd) (pad2_no_space m)
        (pad2_no_space (y % 100)))
    have hsplit : splitSlash (pyStrip (fmtY2 ⟨y, m, dd⟩)) =
        [pad2 dd, pad2 m, pad2 (y % 100)] := by
      rw [hstrip]
      exact fmt_split _ _ _ (pad2_no_slash dd) (pad2_no_slash m)
        (pad2_no_slash (y % 100))
    rw [parse_date_eq hsplit, numField_pad2 hb5 hb6 (by omega),
      numField_pad2 hb3 hb4 (by omega)]
    show parseYear (pad2 (y % 100)) m dd = some ⟨y, m, dd⟩
    unfold parseYear
    rw [exactDigits4_pad2, exactDigits2_pad2 (show y % 100 < 100 by omega)]
    have hpivot : y2map (y % 100) = y := by
      unfold y2map
      split <;> omega
    show mkValid (y2map (y % 100)) m dd = some ⟨y, m, dd⟩
    rw [hpivot]
    simp [mkValid, hvalid]

/-- Witness for C9 (amended): the spec-scenario date 10/05/2025 round-trips
through both formats. -/
theorem C9_witness :
    parse_date (fmtY4 ⟨2025, 5, 10⟩) = some ⟨2025, 5, 10⟩ ∧
    parse_date (fmtY2 ⟨2025, 5, 10⟩) = some ⟨2025, 5, 10⟩ :=
  C9_roundtrip_in_pivot_window "10/05/2025" ⟨2025, 5, 10⟩ (by decide)
    (by decide) (by decide)

/-- C9 counterexample: the record "10/05/1950" parses (via `%d/%m/%Y`), but
re-parsing its `%d/%m/%y` rendering "10/05/50" yields 2050, not 1950: the
two-digit round trip is not the identity. -/
theorem C9_counterexample :
    parse_date "10/05/1950" = some ⟨1950, 5, 10⟩ ∧
    fmtY2 ⟨1950, 5, 10⟩ = "10/05/50" ∧
    parse_date (fmtY2 ⟨1950, 5, 10⟩) = some ⟨2050, 5, 10⟩ ∧
    ¬ parse_date (fmtY2 ⟨1950, 5, 10⟩) = some ⟨1950, 5, 10⟩ := by
  refine ⟨by decide, by decide, by decide, by decide⟩

/-- C5 counterexample: for the `theo_turma.csv` event the classified label
is "Théo", yet the reminder message does not contain "Théo" anywhere — its
`Cronograma` line carries the raw source name instead. -/
theorem C5_counterexample :
    classify theoEvent.src = "Théo" ∧
    hasSub "Théo".data (notifyMsg theoEvent).data = false ∧
    hasSub ("Cronograma: " ++ theoEvent.src).data (notifyMsg theoEvent).data
      = true := by
  refine ⟨by decide, by decide, by decide⟩

lemma splitNL_cons_other (c : Char) (rest : List Char) (hc : ¬ c = '\n') :
    splitNL (c :: rest) =
      (match splitNL rest with
       | l :: ls => (c :: l) :: ls
       | [] => [[c]]) := by
  have hb : (c == '\n') = false := by simp [hc]
  show (if c == '\n' then [] :: splitNL rest else _) = _
  rw [hb]
  simp

lemma splitNL_cons_nl (rest : List Char) :
    splitNL ('\n' :: rest) = [] :: splitNL rest := rfl

lemma splitNL_append (a b : List Char) (ha : ∀ c ∈ a, ¬ c = '\n') :
    splitNL (a ++ '\n' :: b) = a :: splitNL b := by
  induction a with
  | nil => rfl
  | cons c a ih =>
    rw [List.cons_append, splitNL_cons_other c _ (ha c (List.mem_cons_self c a)),
      ih (fun x hx => ha x (List.mem_cons_of_mem c hx))]

lemma splitNL_no_nl (a : List Char) (ha : ∀ c ∈ a, ¬ c = '\n') :
    splitNL a = [a] := by
  induction a with
  | nil => rfl
  | cons c a ih =>
    rw [splitNL_cons_other c a (ha c (List.mem_cons_self c a)),
      ih (fun x hx => ha x (List.mem_cons_of_mem c hx))]

lemma no_nl_append {a b : List Char} (ha : ∀ c ∈ a, ¬ c = '\n')
    (hb : ∀ c ∈ b, ¬ c = '\n') : ∀ c ∈ a ++ b, ¬ c = '\n' := by
  intro c hc
  rcases List.mem_append.mp hc with h | h
  · exact ha c h
  · exact hb c h

lemma digitChar_not_nl (k : Nat) : ¬ digitChar k = '\n' := by
  unfold digitChar
  repeat' split
  all_goals decide

lemma fmtDM_no_nl (d : Date) : ∀ c ∈ (fmtDM d).data, ¬ c = '\n' := by
  intro c hc
  have hc2 : c ∈ pad2 d.day ++ '/' :: pad2 d.month := hc
  rcases List.mem_append.mp hc2 with h | h
  · simp only [pad2, List.mem_cons, List.not_mem_nil, or_false] at h
    rcases h with rfl | rfl <;> exact digitChar_not_nl _
  · rcases List.mem_cons.mp h with rfl | h2
    · decide
    · simp only [pad2, List.mem_cons, List.not_mem_nil, or_false] at h2
      rcases h2 with rfl | rfl <;> exact digitChar_not_nl _

lemma data_append (s t : String) : (s ++ t).data = s.data ++ t.data := by
  cases s
  cases t
  rfl

lemma header_data :
    "🗓️ *Lembrete de amanhã!*\n".data =
      "🗓️ *Lembrete de amanhã!*".data ++ ['\n'] := by decide

lemma nl_data : "\n".data = ['\n'] := by decide

lemma crono_data :
    "\n📋 Cronograma: ".data = '\n' :: "📋 Cronograma: ".data := by decide

/-- Character-list form of the notify message, with the two optional lines
as `if`-segments. -/
lemma notifyMsg_data (ev : Event) :
    (notifyMsg ev).data =
      "🗓️ *Lembrete de amanhã!*".data ++ '\n' ::
        (("*Data:* ".data ++ (fmtDM ev.date).data) ++ '\n' ::
          (("*Evento:* ".data ++ ev.title.data) ++ '\n' ::
            ((if ev.loc = "" then []
              else ("*Local:* ".data ++ ev.loc.data) ++ ['\n']) ++
             ((if ev.descr = "" then []
               else ("*Descrição:* ".data ++ ev.descr.data) ++ ['\n']) ++
              '\n' :: ("📋 Cronograma: ".data ++ ev.src.data))))) := by
  by_cases h1 : ev.loc = "" <;> by_cases h2 : ev.descr = "" <;>
    simp only [notifyMsg, h1, h2, if_true, if_false, ite_true, ite_false] <;>
    simp [data_append, header_data, nl_data, crono_data, List.append_assoc]

/-- Line decomposition of the notify message for events whose text fields
contain no newline (a newline inside a field would reflow the message). -/
lemma notifyMsg_lines (ev : Event)
    (ht : ∀ c ∈ ev.title.data, ¬ c = '\n')
    (hl : ∀ c ∈ ev.loc.data, ¬ c = '\n')
    (hd : ∀ c ∈ ev.descr.data, ¬ c = '\n')
    (hs : ∀ c ∈ ev.src.data, ¬ c = '\n') :
    splitNL (notifyMsg ev).data =
      ["🗓️ *Lembrete de amanhã!*".data,
        "*Data:* ".data ++ (fmtDM ev.date).data,
        "*Evento:* ".data ++ ev.title.data] ++
      (if ev.loc = "" then [] else ["*Local:* ".data ++ ev.loc.data]) ++
      (if ev.descr = "" then [] else ["*Descrição:* ".data ++ ev.descr.data]) ++
      [[], "📋 Cronograma: ".data ++ ev.src.data] := by
  rw [notifyMsg_data]
  rw [splitNL_append _ _ (by decide)]
  rw [splitNL_append _ _ (no_nl_append (by decide) (fmtDM_no_nl ev.date))]
  rw [splitNL_append _ _ (no_nl_append (by decide) ht)]
  by_cases h1 : ev.loc = "" <;> by_cases h2 : ev.descr = ""
  · rw [if_pos h1, if_pos h2, List.nil_append, List.nil_append, splitNL_cons_nl,
      splitNL_no_nl _ (no_nl_append (by decide) hs)]
    simp [h1, h2]
  · rw [if_pos h1, if_neg h2, List.nil_append, List.append_assoc,
      List.singleton_append, splitNL_append _ _ (no_nl_append (by decide) hd),
      splitNL_cons_nl, splitNL_no_nl _ (no_nl_append (by decide) hs)]
    simp [h1, h2]
  · rw [if_neg h1, if_pos h2, List.append_assoc, List.singleton_append,
      splitNL_append _ _ (no_nl_append (by decide) hl), List.nil_append,
      splitNL_cons_nl, splitNL_no_nl _ (no_nl_append (by decide) hs)]
    simp [h1, h2]
  · rw [if_neg h1, if_neg h2, List.append_assoc, List.singleton_append,
      splitNL_append _ _ (no_nl_append (by decide) hl), List.append_assoc,
      List.singleton_append, splitNL_append _ _ (no_nl_append (by decide) hd),
      splitNL_cons_nl, splitNL_no_nl _ (no_nl_append (by decide) hs)]
    simp [h1, h2]

/-- C5 amended: the reminder message contains the event's `%d/%m` date line
and its title line; it has a line starting with the location marker exactly
when `local` is non-empty, and one starting with the description marker
exactly when `descricao` is non-empty; and its final line carries the raw
source-group identifier (`src`), not the classified label (see the
counterexample).  Fields are newline-free (a newline inside a CSV field
would reflow the message lines). -/
theorem C5_message_content (ev : Event)
    (ht : ∀ c ∈ ev.title.data, ¬ c = '\n')
    (hl : ∀ c ∈ ev.loc.data, ¬ c = '\n')
    (hd : ∀ c ∈ ev.descr.data, ¬ c = '\n')
    (hs : ∀ c ∈ ev.src.data, ¬ c = '\n') :
    ("*Data:* ".data ++ (fmtDM ev.date).data) ∈ splitNL (notifyMsg ev).data ∧
    ("*Evento:* ".data ++ ev.title.data) ∈ splitNL (notifyMsg ev).data ∧
    ((∃ l ∈ splitNL (notifyMsg ev).data,
        leadsWith "*Local:* ".data l = true) ↔ ¬ ev.loc = "") ∧
    ((∃ l ∈ splitNL (notifyMsg ev).data,
        leadsWith "*Descrição:* ".data l = true) ↔ ¬ ev.descr = "") ∧
    ("📋 Cronograma: ".data ++ ev.src.data) ∈ splitNL (notifyMsg ev).data := by
  rw [notifyMsg_lines ev ht hl hd hs]
  by_cases h1 : ev.loc = "" <;> by_cases h2 : ev.descr = "" <;>
    simp [h1, h2, leadsWith]

/-- Witness for C5 (amended) at a concrete event with a location and no
description. -/
theorem C5_witness :
    ("*Data:* ".data ++ (fmtDM lizEvent.date).data)
      ∈ splitNL (notifyMsg lizEvent).data ∧
    ("*Evento:* ".data ++ lizEvent.title.data)
      ∈ splitNL (notifyMsg lizEvent).data ∧
    ((∃ l ∈ splitNL (notifyMsg lizEvent).data,
        leadsWith "*Local:* ".data l = true) ↔ ¬ lizEvent.loc = "") ∧
    ((∃ l ∈ splitNL (notifyMsg lizEvent).data,
        leadsWith "*Descrição:* ".data l = true) ↔ ¬ lizEvent.descr = "") ∧
    ("📋 Cronograma: ".data ++ lizEvent.src.data)
      ∈ splitNL (notifyMsg lizEvent).data :=
  C5_message_content lizEvent (by decide) (by decide) (by decide) (by decide)

end Cronograma
